import Mathlib

/-!
# BezierCurves: the control-point ring buffer and the Bezier evaluator

A shallow embedding of `Curves/Curves.cpp`.  The class `Curves` keeps two
fixed-size vertex arrays (`controlVertexes`, `curveVertexes`) and two `uint`
counters; `Curves::Update` is run once per frame.

Conventions of the embedding

* `float`/`double` values are rationals (exact arithmetic): rounding,
  infinities and NaN are not modelled.  In particular `(mx - cx) / cx` with
  `cx = 0` is `0` here.
* A fixed-size array `Vertex a[n]` is a function `Fin n → Vertex`.  Every
  array access of the source goes through `readAt`/`writeAt`, which return
  `none` when the index is outside the array (undefined behaviour in C++).
* `uint` is a 32-bit unsigned integer: additions are reduced modulo `2^32`.
* The array capacity `CONTROL_VERTEX_QUANTITY` is a parameter `Q` of the
  definitions; the program itself is the instance `Q = 80`.
-/

namespace BezierCurves

/-! ## Data model -/

/-- Three floats, `DirectX::XMFLOAT3`. -/
structure XMFLOAT3 where
  x : ℚ
  y : ℚ
  z : ℚ
deriving DecidableEq

/-- Four floats, `DirectX::XMFLOAT4`. -/
structure XMFLOAT4 where
  x : ℚ
  y : ℚ
  z : ℚ
  w : ℚ
deriving DecidableEq

/-- Modelled from the spec: the type `Vertex` is declared in `Vertex.h`, which
is not under src/.  A control point is a position (three floats) and a colour
(four floats); the source reads the field `Pos` and brace-initialises a
vertex with the position first and the colour second. -/
structure Vertex where
  Pos : XMFLOAT3
  Color : XMFLOAT4
deriving DecidableEq

namespace Colors

/-- Modelled from the spec: `Colors::Blue` is declared in `DirectXColors.h`,
which is not under src/; the spec only says that control points and curve
samples carry fixed, distinct colours.  The value is the RGBA of DirectXMath. -/
def Blue : XMFLOAT4 := ⟨0, 0, 1, 1⟩

/-- Modelled from the spec: `Colors::Aqua` is declared in `DirectXColors.h`,
which is not under src/ (see `Blue`).  The value is the RGBA of DirectXMath. -/
def Aqua : XMFLOAT4 := ⟨0, 1, 1, 1⟩

end Colors

/-- The constant `static const uint CONTROL_VERTEX_QUANTITY = 80`. -/
abbrev CONTROL_VERTEX_QUANTITY : Nat := 80

/-- The constant `static const uint CURVE_VERTEX_QUANTITY = 28`. -/
abbrev CURVE_VERTEX_QUANTITY : Nat := 28

/-- Reduction of a natural number to the range of `uint`, the 32-bit
`unsigned int` of the engine headers. -/
def uint (n : Nat) : Nat := n % 4294967296

/-- The state of the object `Curves` as far as `Update` touches it: the two
vertex arrays and the two counters, plus a flag recording that
`window->Close()` has been called.  `Q` is `CONTROL_VERTEX_QUANTITY`. -/
structure Curves (Q : Nat) where
  controlVertexes : Fin Q → Vertex
  curveVertexes : Fin CURVE_VERTEX_QUANTITY → Vertex
  controlVertexCount : Nat
  controlVertexIndex : Nat
  windowClosed : Bool

/-- What one frame reads from `window` and `input`: the window centre and
the mouse position (already converted to `float`), and the two `KeyPress`
answers. -/
structure Input where
  CenterX : ℚ
  CenterY : ℚ
  MouseX : ℚ
  MouseY : ℚ
  KeyPressEscape : Bool
  KeyPressLButton : Bool

/-- The read `a[i]` of a fixed-size array; `none` outside the array. -/
def readAt {n : Nat} (a : Fin n → Vertex) (i : Nat) : Option Vertex :=
  if h : i < n then some (a ⟨i, h⟩) else none

/-- The write `a[i] = v` into a fixed-size array; `none` outside the array. -/
def writeAt {n : Nat} (a : Fin n → Vertex) (i : Nat) (v : Vertex) :
    Option (Fin n → Vertex) :=
  if h : i < n then some (Function.update a ⟨i, h⟩ v) else none

/-! ## The Bezier evaluator -/

/-- The function `Curves::calculateBezierCoordinate`: `pow(a, k)` is `a ^ k`. -/
def calculateBezierCoordinate (p1 p2 p3 p4 t : ℚ) : ℚ :=
  (1 - t) ^ 3 * p1 + 3 * t * (1 - t) ^ 2 * p2 + 3 * t ^ 2 * (1 - t) * p3 + t ^ 3 * p4

/-- The function `Curves::generateBezierPoint`. -/
def generateBezierPoint (p1 p2 p3 p4 : XMFLOAT3) (t : ℚ) : Vertex :=
  let x := calculateBezierCoordinate p1.x p2.x p3.x p4.x t
  let y := calculateBezierCoordinate p1.y p2.y p3.y p4.y t
  { Pos := ⟨x, y, 0⟩, Color := Colors.Aqua }

/-- The body of the `for` loop of `Update` at loop index `i`: the four
control vertices of slots 0..3 are read and `curveVertexes[i]` is written. -/
def curveLoopBody {Q : Nat} (controlVertexes : Fin Q → Vertex) (tIncrement : ℚ)
    (curveVertexes : Fin CURVE_VERTEX_QUANTITY → Vertex) (i : Nat) :
    Option (Fin CURVE_VERTEX_QUANTITY → Vertex) := do
  let c0 ← readAt controlVertexes 0
  let c1 ← readAt controlVertexes 1
  let c2 ← readAt controlVertexes 2
  let c3 ← readAt controlVertexes 3
  writeAt curveVertexes i (generateBezierPoint c0.Pos c1.Pos c2.Pos c3.Pos (i * tIncrement))

/-- The loop `for (uint i = 1; i < CURVE_VERTEX_QUANTITY - 1; i++)` of
`Update`: the body is run for `i = 1, ..., CURVE_VERTEX_QUANTITY - 2`. -/
def curveLoop {Q : Nat} (controlVertexes : Fin Q → Vertex) (tIncrement : ℚ)
    (curveVertexes : Fin CURVE_VERTEX_QUANTITY → Vertex) :
    Option (Fin CURVE_VERTEX_QUANTITY → Vertex) :=
  (List.range' 1 (CURVE_VERTEX_QUANTITY - 2)).foldlM
    (curveLoopBody controlVertexes tIncrement) curveVertexes

/-! ## One frame -/

/-- The position `(x, y, 0)` computed from the mouse at the start of `Update`. -/
def Input.point (input : Input) : XMFLOAT3 :=
  let cx := input.CenterX
  let cy := input.CenterY
  let mx := input.MouseX
  let my := input.MouseY
  let x := (mx - cx) / cx
  let y := (cy - my) / cy
  ⟨x, y, 0⟩

/-- The function `Curves::Update`, up to the hand-over to the graphics
backend.  The result is `none` when an array is accessed out of range. -/
def Update (Q : Nat) (input : Input) (s : Curves Q) : Option (Curves Q) := do
  let windowClosed := if input.KeyPressEscape then true else s.windowClosed
  let controlVertexes ←
    writeAt s.controlVertexes s.controlVertexIndex ⟨input.point, Colors.Blue⟩
  let controlVertexIndex :=
    if input.KeyPressLButton then uint (s.controlVertexIndex + 1) % Q
    else s.controlVertexIndex
  let controlVertexCount :=
    if input.KeyPressLButton then
      if s.controlVertexCount < Q then uint (s.controlVertexCount + 1)
      else s.controlVertexCount
    else s.controlVertexCount
  let curveVertexes ←
    if controlVertexCount > 1 then do
      let first ← readAt controlVertexes 0
      let curve ← writeAt s.curveVertexes 0 first
      let tIncrement : ℚ := 1 / ((CURVE_VERTEX_QUANTITY : ℚ) - 1)
      let curve ← curveLoop controlVertexes tIncrement curve
      let last ← readAt controlVertexes (Q - 1)
      writeAt curve (CURVE_VERTEX_QUANTITY - 1) last
    else some s.curveVertexes
  some { controlVertexes := controlVertexes
         curveVertexes := curveVertexes
         controlVertexCount := controlVertexCount
         controlVertexIndex := controlVertexIndex
         windowClosed := windowClosed }

/-- A sequence of frames: `Update` is run once per element, in order. -/
def run (Q : Nat) : List Input → Curves Q → Option (Curves Q)
  | [], s => some s
  | input :: rest, s => (Update Q input s).bind (run Q rest)

/-- The all-zero vertex of a value-initialised array. -/
def Vertex.zero : Vertex := ⟨⟨0, 0, 0⟩, ⟨0, 0, 0, 0⟩⟩

/-- The object as `new Curves()` leaves it: zeroed arrays, both counters `0`. -/
def Curves.init (Q : Nat) : Curves Q :=
  { controlVertexes := fun _ => Vertex.zero
    curveVertexes := fun _ => Vertex.zero
    controlVertexCount := 0
    controlVertexIndex := 0
    windowClosed := false }

/-- An initial state with arbitrary array contents: both counters are `0`. -/
def IsInitial {Q : Nat} (s : Curves Q) : Prop :=
  s.controlVertexCount = 0 ∧ s.controlVertexIndex = 0

/-- The states the frame loop can reach from an initial state. -/
def Reachable {Q : Nat} (s : Curves Q) : Prop :=
  ∃ (s0 : Curves Q) (frames : List Input), IsInitial s0 ∧ run Q frames s0 = some s

/-- The capacities `Update` is written for: slots 0..3 exist and the
capacity fits a `uint`. -/
def ValidQuantity (Q : Nat) : Prop := 4 ≤ Q ∧ Q < 4294967296

/-- The counter invariant of the ring buffer. -/
def Inv {Q : Nat} (s : Curves Q) : Prop :=
  s.controlVertexCount ≤ Q ∧ s.controlVertexIndex < Q

/-- The value of slot `i` of an array, the zero vertex outside the array. -/
def slot {n : Nat} (a : Fin n → Vertex) (i : Nat) : Vertex :=
  (readAt a i).getD Vertex.zero

/-- The closed form of the polyline a recomputing frame leaves behind, as a
function of the control-vertex array alone (shown equal to what `Update`
computes in `Update_spec`). -/
def polylineOf {Q : Nat} (cv : Fin Q → Vertex) : Fin CURVE_VERTEX_QUANTITY → Vertex :=
  fun j =>
    if j.val = 0 then slot cv 0
    else if j.val = CURVE_VERTEX_QUANTITY - 1 then slot cv (Q - 1)
    else generateBezierPoint (slot cv 0).Pos (slot cv 1).Pos (slot cv 2).Pos (slot cv 3).Pos
      (j.val * (1 / ((CURVE_VERTEX_QUANTITY : ℚ) - 1)))

/-- The points committed by a sequence of frames (the frames with a left
click), oldest first. -/
def commits (frames : List Input) : List XMFLOAT3 :=
  (frames.filter (fun f => f.KeyPressLButton)).map Input.point

/-- What holds of every reachable state besides `Inv`: before the buffer is
full the write index equals the count, slot 0 carries the control-point
colour once a point is committed, and from two points on the polyline is
the recomputation of the current control vertices. -/
def FrameInv {Q : Nat} (s : Curves Q) : Prop :=
  Inv s ∧
  (s.controlVertexCount < Q → s.controlVertexIndex = s.controlVertexCount) ∧
  (1 ≤ s.controlVertexCount → (slot s.controlVertexes 0).Color = Colors.Blue) ∧
  (2 ≤ s.controlVertexCount → s.curveVertexes = polylineOf s.controlVertexes)

/-- The ring buffer `s` holds the committed points `cs`: the counters count
them, and commit number `m` sits in slot `m % Q` as long as fewer than `Q`
commits came after it and the preview has not reached its slot. -/
def Committed {Q : Nat} (cs : List XMFLOAT3) (s : Curves Q) : Prop :=
  s.controlVertexCount = min cs.length Q ∧
  s.controlVertexIndex = cs.length % Q ∧
  ∀ (m : Nat) (p : XMFLOAT3), cs[m]? = some p → cs.length < m + Q →
    slot s.controlVertexes (m % Q) = ⟨p, Colors.Blue⟩

/-- The blend of the specification, per coordinate:
`B(t) = (1-t)^3 P1 + 3t(1-t)^2 P2 + 3t^2(1-t) P3 + t^3 P4`. -/
def bezierBlend (P1 P2 P3 P4 t : ℚ) : ℚ :=
  (1 - t) ^ 3 * P1 + 3 * t * (1 - t) ^ 2 * P2 + 3 * t ^ 2 * (1 - t) * P3 + t ^ 3 * P4

/-- A frame with the window centre at `(512, 300)`, the mouse at `(mx, my)`
and the given state of the left button. -/
def frameAt (mx my : ℚ) (click : Bool) : Input :=
  { CenterX := 512, CenterY := 300, MouseX := mx, MouseY := my
    KeyPressEscape := false, KeyPressLButton := click }

/-- The frame that commits the point `A = (0, 0)`: a left click with the
mouse at the window centre. -/
def commitA : Input :=
  { CenterX := 512, CenterY := 300, MouseX := 512, MouseY := 300
    KeyPressEscape := false, KeyPressLButton := true }

/-- The frame that commits the point `B = (1, 1)`: a left click with the
mouse at the top right corner of the window. -/
def commitB : Input :=
  { CenterX := 512, CenterY := 300, MouseX := 1024, MouseY := 0
    KeyPressEscape := false, KeyPressLButton := true }

/-- Five commits of five distinct points, `(0,0)`, `(1,1)`, `(-1,1)`,
`(-1,-1)` and `(1,-1)`. -/
def fiveCommits : List Input :=
  [frameAt 512 300 true, frameAt 1024 0 true, frameAt 0 0 true, frameAt 0 600 true,
    frameAt 1024 600 true]

/-- Eighty commits, all of the point `(0, 0)`. -/
def eightyCommits : List Input := List.replicate 80 commitA

/-- A frame without a click, the mouse at the top right corner `(1, 1)`. -/
def moveB : Input :=
  { CenterX := 512, CenterY := 300, MouseX := 1024, MouseY := 0
    KeyPressEscape := false, KeyPressLButton := false }

/-- The state after the given frames, started from `Curves.init`. -/
def stateAfter (Q : Nat) (frames : List Input) : Curves Q :=
  (run Q frames (Curves.init Q)).getD (Curves.init Q)

/-! ## Arrays -/

theorem readAt_of_lt {n : Nat} (a : Fin n → Vertex) {i : Nat} (h : i < n) :
    readAt a i = some (a ⟨i, h⟩) := by
  simp [readAt, h]

theorem readAt_eq_slot {n : Nat} (a : Fin n → Vertex) {i : Nat} (h : i < n) :
    readAt a i = some (slot a i) := by
  simp [slot, readAt, h]

theorem slot_of_lt {n : Nat} (a : Fin n → Vertex) {i : Nat} (h : i < n) :
    slot a i = a ⟨i, h⟩ := by
  simp [slot, readAt, h]

theorem writeAt_of_lt {n : Nat} (a : Fin n → Vertex) {i : Nat} (h : i < n) (v : Vertex) :
    writeAt a i v = some (Function.update a ⟨i, h⟩ v) := by
  simp [writeAt, h]

theorem slot_update_same {n : Nat} (a : Fin n → Vertex) {i : Nat} (h : i < n) (v : Vertex) :
    slot (Function.update a ⟨i, h⟩ v) i = v := by
  simp [slot, readAt, h]

theorem slot_update_ne {n : Nat} (a : Fin n → Vertex) {i j : Nat} (h : i < n) (v : Vertex)
    (hij : j ≠ i) : slot (Function.update a ⟨i, h⟩ v) j = slot a j := by
  unfold slot readAt
  by_cases hj : j < n
  · have hne : (⟨j, hj⟩ : Fin n) ≠ ⟨i, h⟩ := by
      intro hEq
      exact hij (Fin.mk.inj_iff.mp hEq)
    simp [hj, Function.update_noteq hne]
  · simp [hj]

theorem uint_of_lt {n : Nat} (h : n < 4294967296) : uint n = n := by
  unfold uint
  exact Nat.mod_eq_of_lt h

/-! ## The loop -/

theorem curveLoopBody_eq {Q : Nat} (hQ : 4 ≤ Q) (cv : Fin Q → Vertex) (t : ℚ)
    (curve : Fin CURVE_VERTEX_QUANTITY → Vertex) {i : Nat} (hi : i < CURVE_VERTEX_QUANTITY) :
    curveLoopBody cv t curve i =
      some (Function.update curve ⟨i, hi⟩
        (generateBezierPoint (slot cv 0).Pos (slot cv 1).Pos (slot cv 2).Pos (slot cv 3).Pos
          (i * t))) := by
  have h0 : 0 < Q := by omega
  have h1 : 1 < Q := by omega
  have h2 : 2 < Q := by omega
  have h3 : 3 < Q := by omega
  simp [curveLoopBody, readAt_eq_slot cv h0, readAt_eq_slot cv h1, readAt_eq_slot cv h2,
    readAt_eq_slot cv h3, writeAt_of_lt curve hi]

theorem foldlM_curveLoopBody {Q : Nat} (hQ : 4 ≤ Q) (cv : Fin Q → Vertex) (t : ℚ) :
    ∀ (l : List Nat) (curve : Fin CURVE_VERTEX_QUANTITY → Vertex),
      (∀ i ∈ l, i < CURVE_VERTEX_QUANTITY) →
      l.foldlM (curveLoopBody cv t) curve =
        some (fun j =>
          if j.val ∈ l then
            generateBezierPoint (slot cv 0).Pos (slot cv 1).Pos (slot cv 2).Pos (slot cv 3).Pos
              (j.val * t)
          else curve j) := by
  intro l
  induction l with
  | nil =>
    intro curve _
    simp
  | cons i l ih =>
    intro curve hl
    have hi : i < CURVE_VERTEX_QUANTITY := hl i (List.mem_cons_self i l)
    have hl2 : ∀ k ∈ l, k < CURVE_VERTEX_QUANTITY := fun k hk => hl k (List.mem_cons_of_mem i hk)
    rw [List.foldlM_cons, curveLoopBody_eq hQ cv t curve hi]
    simp only [Option.bind_eq_bind, Option.some_bind]
    rw [ih _ hl2]
    congr 1
    funext j
    by_cases hjl : j.val ∈ l
    · simp [hjl]
    · by_cases hji : j.val = i
      · have hj : j = ⟨i, hi⟩ := Fin.ext hji
        subst hj
        simp [hjl]
      · have hj : j ≠ ⟨i, hi⟩ := fun hEq => hji (by rw [hEq])
        simp [hjl, hji, Function.update_noteq hj]

theorem curveLoop_eq {Q : Nat} (hQ : 4 ≤ Q) (cv : Fin Q → Vertex) (t : ℚ)
    (curve : Fin CURVE_VERTEX_QUANTITY → Vertex) :
    curveLoop cv t curve =
      some (fun j =>
        if 1 ≤ j.val ∧ j.val < CURVE_VERTEX_QUANTITY - 1 then
          generateBezierPoint (slot cv 0).Pos (slot cv 1).Pos (slot cv 2).Pos (slot cv 3).Pos
            (j.val * t)
        else curve j) := by
  unfold curveLoop
  rw [foldlM_curveLoopBody hQ cv t]
  · congr 1
    funext j
    have hmem : j.val ∈ List.range' 1 (CURVE_VERTEX_QUANTITY - 2) ↔
        (1 ≤ j.val ∧ j.val < CURVE_VERTEX_QUANTITY - 1) := by
      rw [List.mem_range'_1]
      omega
    simp only [hmem]
  · intro i hi
    rw [List.mem_range'_1] at hi
    omega

/-! ## The closed form of one frame -/

theorem polyline_fun_eq {Q : Nat} (cv : Fin Q → Vertex) (t : ℚ)
    (ht : t = 1 / ((CURVE_VERTEX_QUANTITY : ℚ) - 1))
    (old : Fin CURVE_VERTEX_QUANTITY → Vertex)
    (c0 : 0 < CURVE_VERTEX_QUANTITY)
    (cl : CURVE_VERTEX_QUANTITY - 1 < CURVE_VERTEX_QUANTITY) :
    Function.update
      (fun j : Fin CURVE_VERTEX_QUANTITY =>
        if 1 ≤ j.val ∧ j.val < CURVE_VERTEX_QUANTITY - 1 then
          generateBezierPoint (slot cv 0).Pos (slot cv 1).Pos (slot cv 2).Pos (slot cv 3).Pos
            (j.val * t)
        else Function.update old ⟨0, c0⟩ (slot cv 0) j)
      ⟨CURVE_VERTEX_QUANTITY - 1, cl⟩ (slot cv (Q - 1)) = polylineOf cv := by
  funext j
  unfold polylineOf
  by_cases hj0 : j.val = 0
  · have hne : j ≠ ⟨CURVE_VERTEX_QUANTITY - 1, cl⟩ := by
      intro hEq
      rw [hEq] at hj0
      simp at hj0
    have hj : j = ⟨0, c0⟩ := Fin.ext hj0
    rw [Function.update_noteq hne]
    subst hj
    simp
  · by_cases hjl : j.val = CURVE_VERTEX_QUANTITY - 1
    · have hj : j = ⟨CURVE_VERTEX_QUANTITY - 1, cl⟩ := Fin.ext hjl
      subst hj
      simp
    · have hne : j ≠ ⟨CURVE_VERTEX_QUANTITY - 1, cl⟩ := fun hEq => hjl (by rw [hEq])
      have hlt := j.isLt
      have hin : 1 ≤ j.val ∧ j.val < CURVE_VERTEX_QUANTITY - 1 := by omega
      rw [Function.update_noteq hne]
      simp only [hin, hj0, hjl, ht]
      simp

theorem Update_spec {Q : Nat} (hQ : ValidQuantity Q) (s : Curves Q) (hs : Inv s)
    (input : Input) :
    ∃ s2 : Curves Q, Update Q input s = some s2 ∧
      s2.controlVertexes =
        Function.update s.controlVertexes ⟨s.controlVertexIndex, hs.2⟩
          ⟨input.point, Colors.Blue⟩ ∧
      s2.controlVertexIndex =
        (if input.KeyPressLButton then (s.controlVertexIndex + 1) % Q
         else s.controlVertexIndex) ∧
      s2.controlVertexCount =
        (if input.KeyPressLButton ∧ s.controlVertexCount < Q then s.controlVertexCount + 1
         else s.controlVertexCount) ∧
      s2.curveVertexes =
        (if 1 < s2.controlVertexCount then polylineOf s2.controlVertexes
         else s.curveVertexes) ∧
      s2.windowClosed = (input.KeyPressEscape || s.windowClosed) := by
  obtain ⟨hQ4, hQu⟩ := hQ
  obtain ⟨hc, hi⟩ := hs
  have hu1 : uint (s.controlVertexIndex + 1) = s.controlVertexIndex + 1 :=
    uint_of_lt (by omega)
  have hu2 : s.controlVertexCount < Q →
      uint (s.controlVertexCount + 1) = s.controlVertexCount + 1 :=
    fun h => uint_of_lt (by omega)
  have h0 : 0 < Q := by omega
  have hl : Q - 1 < Q := by omega
  have c0 : 0 < CURVE_VERTEX_QUANTITY := by decide
  have cl : CURVE_VERTEX_QUANTITY - 1 < CURVE_VERTEX_QUANTITY := by decide
  have hw : ∀ b : Bool, (if b = true then true else s.windowClosed) = (b || s.windowClosed) := by
    intro b; cases b <;> simp
  have hcnt : (if input.KeyPressLButton = true then
        if s.controlVertexCount < Q then uint (s.controlVertexCount + 1)
        else s.controlVertexCount
      else s.controlVertexCount) =
      (if input.KeyPressLButton = true ∧ s.controlVertexCount < Q then s.controlVertexCount + 1
       else s.controlVertexCount) := by
    by_cases hclick : input.KeyPressLButton = true
    · by_cases hlt : s.controlVertexCount < Q
      · simp [hclick, hlt, hu2 hlt]
      · simp [hclick, hlt]
    · simp [hclick]
  unfold Update
  simp only [writeAt_of_lt s.controlVertexes hi, Option.bind_eq_bind, Option.some_bind, hu1,
    hcnt, hw]
  by_cases h1 : (if input.KeyPressLButton = true ∧ s.controlVertexCount < Q then
      s.controlVertexCount + 1 else s.controlVertexCount) > 1
  · simp only [h1, if_true, readAt_eq_slot _ h0, readAt_eq_slot _ hl,
      writeAt_of_lt s.curveVertexes c0, curveLoop_eq hQ4, writeAt_of_lt _ cl, Option.some_bind,
      polyline_fun_eq _ _ rfl]
    exact ⟨_, rfl, rfl, rfl, rfl, by simp only [if_pos (show 1 < _ from h1)], rfl⟩
  · simp only [h1, if_false, Option.some_bind]
    exact ⟨_, rfl, rfl, rfl, rfl, by simp only [if_neg (show ¬ 1 < _ from h1)], rfl⟩

/-! ## Invariants of the frame loop -/

theorem slot_update_eq {n : Nat} (a : Fin n → Vertex) {i j : Nat} (h : i < n) (v : Vertex)
    (hj : j = i) : slot (Function.update a ⟨i, h⟩ v) j = v := by
  subst hj
  exact slot_update_same a h v

theorem Update_inv {Q : Nat} (hQ : ValidQuantity Q) (s : Curves Q) (hs : Inv s)
    (input : Input) (s2 : Curves Q) (hU : Update Q input s = some s2) : Inv s2 := by
  obtain ⟨t, hT, -, hidx, hcnt, -, -⟩ := Update_spec hQ s hs input
  have ht : t = s2 := Option.some.inj (hT.symm.trans hU)
  subst ht
  have hpos : 0 < Q := by have := hQ.1; omega
  obtain ⟨hc, hi⟩ := hs
  constructor
  · rw [hcnt]
    split_ifs with h
    · omega
    · exact hc
  · rw [hidx]
    split_ifs
    · exact Nat.mod_lt _ hpos
    · exact hi

theorem run_inv {Q : Nat} (hQ : ValidQuantity Q) (frames : List Input) :
    ∀ s : Curves Q, Inv s → ∃ s2, run Q frames s = some s2 ∧ Inv s2 := by
  induction frames with
  | nil =>
    intro s hs
    exact ⟨s, rfl, hs⟩
  | cons input rest ih =>
    intro s hs
    obtain ⟨t, hT, -⟩ := Update_spec hQ s hs input
    obtain ⟨s2, h2, hi2⟩ := ih t (Update_inv hQ s hs input t hT)
    exact ⟨s2, by simp [run, hT, h2], hi2⟩

theorem run_append {Q : Nat} (a b : List Input) :
    ∀ s : Curves Q, run Q (a ++ b) s = (run Q a s).bind (run Q b) := by
  induction a with
  | nil =>
    intro s
    simp [run]
  | cons input rest ih =>
    intro s
    cases h : Update Q input s with
    | none => simp [run, h]
    | some t => simp [run, h, ih t]

theorem isInitial_inv {Q : Nat} (hQ : ValidQuantity Q) {s : Curves Q} (h : IsInitial s) :
    Inv s := by
  have := hQ.1
  unfold Inv
  rw [h.1, h.2]
  omega

theorem isInitial_frameInv {Q : Nat} (hQ : ValidQuantity Q) {s : Curves Q}
    (h : IsInitial s) : FrameInv s := by
  refine ⟨isInitial_inv hQ h, ?_, ?_, ?_⟩
  · intro _
    rw [h.1, h.2]
  · intro h1
    rw [h.1] at h1
    omega
  · intro h2
    rw [h.1] at h2
    omega

theorem FrameInv_step {Q : Nat} (hQ : ValidQuantity Q) (s : Curves Q) (hs : FrameInv s)
    (input : Input) (s2 : Curves Q) (hU : Update Q input s = some s2) : FrameInv s2 := by
  obtain ⟨hinv, hI1, hI2, -⟩ := hs
  obtain ⟨t, hT, hcv, hidx, hcnt, hcurve, -⟩ := Update_spec hQ s hinv input
  have ht : t = s2 := Option.some.inj (hT.symm.trans hU)
  subst ht
  have hQ4 := hQ.1
  refine ⟨Update_inv hQ s hinv input t hT, ?_, ?_, ?_⟩
  · intro hlt
    rw [hcnt] at hlt ⊢
    rw [hidx]
    by_cases hclick : input.KeyPressLButton = true
    · by_cases hc : s.controlVertexCount < Q
      · simp only [hclick, hc, and_self, if_true] at hlt ⊢
        rw [hI1 hc]
        exact Nat.mod_eq_of_lt hlt
      · simp only [hclick, hc, and_false, if_false] at hlt
    · simp only [hclick, false_and, if_false] at hlt ⊢
      simpa [hclick] using hI1 hlt
  · intro h1
    rw [hcv]
    by_cases h0 : s.controlVertexIndex = 0
    · rw [slot_update_eq _ hinv.2 _ h0.symm]
    · rw [slot_update_ne _ _ _ (Ne.symm h0)]
      apply hI2
      by_contra hc
      have hz : s.controlVertexCount = 0 := by omega
      have := hI1 (by omega)
      omega
  · intro h2
    rw [hcurve, if_pos (by omega)]

theorem run_frameInv {Q : Nat} (hQ : ValidQuantity Q) (frames : List Input) :
    ∀ s s2 : Curves Q, FrameInv s → run Q frames s = some s2 → FrameInv s2 := by
  induction frames with
  | nil =>
    intro s s2 hs h
    have : s = s2 := by simpa [run] using h
    exact this ▸ hs
  | cons input rest ih =>
    intro s s2 hs h
    cases hU : Update Q input s with
    | none => simp [run, hU] at h
    | some t =>
      have ht : run Q rest t = some s2 := by simpa [run, hU] using h
      exact ih t s2 (FrameInv_step hQ s hs input t hU) ht

theorem reachable_frameInv {Q : Nat} (hQ : ValidQuantity Q) {s : Curves Q}
    (h : Reachable s) : FrameInv s := by
  obtain ⟨s0, frames, h0, hrun⟩ := h
  exact run_frameInv hQ frames s0 s (isInitial_frameInv hQ h0) hrun

theorem reachable_step {Q : Nat} {s s2 : Curves Q} (h : Reachable s) (input : Input)
    (hU : Update Q input s = some s2) : Reachable s2 := by
  obtain ⟨s0, frames, h0, hrun⟩ := h
  refine ⟨s0, frames ++ [input], h0, ?_⟩
  rw [run_append, hrun]
  simp [run, hU]

/-! ## The committed points in the ring buffer -/

theorem commits_nil : commits [] = [] := rfl

theorem commits_cons (input : Input) (rest : List Input) :
    commits (input :: rest) =
      if input.KeyPressLButton then input.point :: commits rest else commits rest := by
  unfold commits
  by_cases h : input.KeyPressLButton = true
  · simp [List.filter_cons, h]
  · simp [List.filter_cons, h]

theorem mod_ne_of_lt_of_lt {Q m k : Nat} (hmk : m < k) (hk : k < m + Q) : m % Q ≠ k % Q := by
  intro h
  have h2 : (k - m) % Q = 0 := Nat.sub_mod_eq_zero_of_mod_eq h.symm
  have h3 : (k - m) % Q = k - m := Nat.mod_eq_of_lt (by omega)
  omega

theorem committed_initial {Q : Nat} {s : Curves Q} (h : IsInitial s) : Committed [] s := by
  refine ⟨?_, ?_, ?_⟩
  · simp [h.1]
  · simp [h.2]
  · intro m p hm
    simp at hm

theorem committed_step {Q : Nat} (hQ : ValidQuantity Q) (cs : List XMFLOAT3) (s : Curves Q)
    (hs : Committed cs s) (input : Input) (s2 : Curves Q) (hU : Update Q input s = some s2) :
    Committed (cs ++ commits [input]) s2 := by
  obtain ⟨hQ4, hQu⟩ := hQ
  obtain ⟨hC, hI, hS⟩ := hs
  have hpos : 0 < Q := by omega
  have hinv : Inv s := by
    refine ⟨?_, ?_⟩
    · rw [hC]; exact min_le_right _ _
    · rw [hI]; exact Nat.mod_lt _ hpos
  obtain ⟨t, hT, hcv, hidx, hcnt, -, -⟩ := Update_spec ⟨hQ4, hQu⟩ s hinv input
  have ht : t = s2 := Option.some.inj (hT.symm.trans hU)
  subst ht
  by_cases hclick : input.KeyPressLButton = true
  · have hcm : commits [input] = [input.point] := by simp [commits_cons, hclick, commits_nil]
    rw [hcm]
    refine ⟨?_, ?_, ?_⟩
    · rw [hcnt, hC]
      simp only [hclick, true_and, List.length_append, List.length_singleton]
      split_ifs with h
      · omega
      · omega
    · rw [hidx, hI]
      simp only [hclick, if_true, List.length_append, List.length_singleton]
      exact Nat.mod_add_mod _ _ _
    · intro m p hm hlt
      simp only [List.length_append, List.length_singleton] at hlt
      rw [hcv]
      by_cases hmk : m = cs.length
      · subst hmk
        have hp : p = input.point := by
          simpa [List.getElem?_append_right] using hm.symm
        rw [slot_update_eq _ hinv.2 _ hI.symm, hp]
      · have hmlt : m < cs.length := by
          have := (List.getElem?_eq_some.mp hm).1
          simp only [List.length_append, List.length_singleton] at this
          omega
        have hm2 : cs[m]? = some p := by
          rw [List.getElem?_append_left hmlt] at hm
          exact hm
        have hne : m % Q ≠ s.controlVertexIndex := by
          rw [hI]
          exact mod_ne_of_lt_of_lt hmlt (by omega)
        rw [slot_update_ne _ hinv.2 _ hne]
        exact hS m p hm2 (by omega)
  · have hcm : commits [input] = [] := by simp [commits_cons, hclick, commits_nil]
    rw [hcm, List.append_nil]
    refine ⟨?_, ?_, ?_⟩
    · rw [hcnt, hC]
      simp [hclick]
    · rw [hidx, hI]
      simp [hclick]
    · intro m p hm hlt
      have hmlt : m < cs.length := (List.getElem?_eq_some.mp hm).1
      have hne : m % Q ≠ s.controlVertexIndex := by
        rw [hI]
        exact mod_ne_of_lt_of_lt hmlt hlt
      rw [hcv, slot_update_ne _ hinv.2 _ hne]
      exact hS m p hm hlt

theorem commits_append (a b : List Input) : commits (a ++ b) = commits a ++ commits b := by
  simp [commits]

theorem committed_run {Q : Nat} (hQ : ValidQuantity Q) (frames : List Input) :
    ∀ (cs : List XMFLOAT3) (s s2 : Curves Q), Committed cs s → run Q frames s = some s2 →
      Committed (cs ++ commits frames) s2 := by
  induction frames with
  | nil =>
    intro cs s s2 hs h
    have : s = s2 := by simpa [run] using h
    subst this
    simpa [commits_nil] using hs
  | cons input rest ih =>
    intro cs s s2 hs h
    cases hU : Update Q input s with
    | none => simp [run, hU] at h
    | some t =>
      have ht : run Q rest t = some s2 := by simpa [run, hU] using h
      have := ih _ t s2 (committed_step hQ cs s hs input t hU) ht
      have e : input :: rest = [input] ++ rest := rfl
      rw [e, commits_append, ← List.append_assoc]
      exact this

/-! ## The polyline of a recomputing frame -/

theorem slot_polylineOf_zero {Q : Nat} (cv : Fin Q → Vertex) :
    slot (polylineOf cv) 0 = slot cv 0 := by
  rw [slot_of_lt (polylineOf cv) (show 0 < CURVE_VERTEX_QUANTITY by decide)]
  simp [polylineOf]

theorem slot_polylineOf_last {Q : Nat} (cv : Fin Q → Vertex) :
    slot (polylineOf cv) (CURVE_VERTEX_QUANTITY - 1) = slot cv (Q - 1) := by
  rw [slot_of_lt (polylineOf cv)
    (show CURVE_VERTEX_QUANTITY - 1 < CURVE_VERTEX_QUANTITY by decide)]
  simp [polylineOf]

theorem slot_polylineOf_interior {Q : Nat} (cv : Fin Q → Vertex) {i : Nat} (h1 : 1 ≤ i)
    (h2 : i ≤ CURVE_VERTEX_QUANTITY - 2) :
    slot (polylineOf cv) i =
      generateBezierPoint (slot cv 0).Pos (slot cv 1).Pos (slot cv 2).Pos (slot cv 3).Pos
        (i * (1 / ((CURVE_VERTEX_QUANTITY : ℚ) - 1))) := by
  have hi : i < CURVE_VERTEX_QUANTITY := by omega
  rw [slot_of_lt (polylineOf cv) hi]
  have e0 : ¬ i = 0 := by omega
  have e1 : ¬ i = CURVE_VERTEX_QUANTITY - 1 := by omega
  simp only [polylineOf, e0, e1, if_false]

theorem calculateBezierCoordinate_ge (p1 p2 p3 p4 t m : ℚ) (h0 : 0 ≤ t) (h1 : t ≤ 1)
    (m1 : m ≤ p1) (m2 : m ≤ p2) (m3 : m ≤ p3) (m4 : m ≤ p4) :
    m ≤ calculateBezierCoordinate p1 p2 p3 p4 t := by
  have hs : 0 ≤ 1 - t := by linarith
  have w1 : 0 ≤ (1 - t) ^ 3 := pow_nonneg hs 3
  have w2 : 0 ≤ 3 * t * (1 - t) ^ 2 := by positivity
  have w3 : 0 ≤ 3 * t ^ 2 * (1 - t) := by positivity
  have w4 : 0 ≤ t ^ 3 := pow_nonneg h0 3
  have a1 := mul_nonneg w1 (sub_nonneg.mpr m1)
  have a2 := mul_nonneg w2 (sub_nonneg.mpr m2)
  have a3 := mul_nonneg w3 (sub_nonneg.mpr m3)
  have a4 := mul_nonneg w4 (sub_nonneg.mpr m4)
  unfold calculateBezierCoordinate
  nlinarith [a1, a2, a3, a4]

theorem calculateBezierCoordinate_le (p1 p2 p3 p4 t M : ℚ) (h0 : 0 ≤ t) (h1 : t ≤ 1)
    (m1 : p1 ≤ M) (m2 : p2 ≤ M) (m3 : p3 ≤ M) (m4 : p4 ≤ M) :
    calculateBezierCoordinate p1 p2 p3 p4 t ≤ M := by
  have hs : 0 ≤ 1 - t := by linarith
  have w1 : 0 ≤ (1 - t) ^ 3 := pow_nonneg hs 3
  have w2 : 0 ≤ 3 * t * (1 - t) ^ 2 := by positivity
  have w3 : 0 ≤ 3 * t ^ 2 * (1 - t) := by positivity
  have w4 : 0 ≤ t ^ 3 := pow_nonneg h0 3
  have a1 := mul_nonneg w1 (sub_nonneg.mpr m1)
  have a2 := mul_nonneg w2 (sub_nonneg.mpr m2)
  have a3 := mul_nonneg w3 (sub_nonneg.mpr m3)
  have a4 := mul_nonneg w4 (sub_nonneg.mpr m4)
  unfold calculateBezierCoordinate
  nlinarith [a1, a2, a3, a4]

theorem calculateBezierCoordinate_bounds (p1 p2 p3 p4 t : ℚ) (h0 : 0 ≤ t) (h1 : t ≤ 1) :
    min (min p1 p2) (min p3 p4) ≤ calculateBezierCoordinate p1 p2 p3 p4 t ∧
    calculateBezierCoordinate p1 p2 p3 p4 t ≤ max (max p1 p2) (max p3 p4) := by
  constructor
  · refine calculateBezierCoordinate_ge p1 p2 p3 p4 t _ h0 h1 ?_ ?_ ?_ ?_ <;>
      simp [min_le_iff]
  · refine calculateBezierCoordinate_le p1 p2 p3 p4 t _ h0 h1 ?_ ?_ ?_ ?_ <;>
      simp [le_max_iff]

theorem param_range {i : Nat} (h2 : i ≤ CURVE_VERTEX_QUANTITY - 2) :
    0 ≤ (i : ℚ) * (1 / ((CURVE_VERTEX_QUANTITY : ℚ) - 1)) ∧
    (i : ℚ) * (1 / ((CURVE_VERTEX_QUANTITY : ℚ) - 1)) ≤ 1 := by
  have hi : (i : ℚ) ≤ 26 := by
    have : i ≤ 26 := h2
    exact_mod_cast this
  have h0 : (0 : ℚ) ≤ i := Nat.cast_nonneg i
  constructor
  · positivity
  · norm_num
    linarith

/-- The interior samples written by a recomputing frame, in terms of the
slots of the control-vertex array after the preview write. -/
theorem Update_interior {Q : Nat} (hQ : ValidQuantity Q) (s : Curves Q) (hs : Inv s)
    (input : Input) :
    ∃ s2 : Curves Q, Update Q input s = some s2 ∧
      (1 < s2.controlVertexCount → ∀ i : Nat, 1 ≤ i → i ≤ CURVE_VERTEX_QUANTITY - 2 →
        readAt s2.curveVertexes i =
          some (generateBezierPoint (slot s2.controlVertexes 0).Pos
            (slot s2.controlVertexes 1).Pos (slot s2.controlVertexes 2).Pos
            (slot s2.controlVertexes 3).Pos (i * (1 / ((CURVE_VERTEX_QUANTITY : ℚ) - 1))))) := by
  obtain ⟨t, hT, -, -, -, hcurve, -⟩ := Update_spec hQ s hs input
  refine ⟨t, hT, ?_⟩
  intro h1 i hi1 hi2
  rw [readAt_eq_slot _ (show i < CURVE_VERTEX_QUANTITY by omega), hcurve, if_pos h1,
    slot_polylineOf_interior _ hi1 hi2]


theorem validQuantity_reference : ValidQuantity CONTROL_VERTEX_QUANTITY :=
  ⟨by decide, by decide⟩

theorem inv_init (Q : Nat) (hQ : 0 < Q) : Inv (Curves.init Q) :=
  ⟨Nat.zero_le Q, hQ⟩

theorem param_eq (i : Nat) :
    (i : ℚ) * (1 / ((CURVE_VERTEX_QUANTITY : ℚ) - 1)) = (i : ℚ) / 27 := by
  norm_num
  ring

/-! ## Further lemmas on runs -/

theorem isInitial_init (Q : Nat) : IsInitial (Curves.init Q) := ⟨rfl, rfl⟩

theorem run_stateAfter {Q : Nat} (hQ : ValidQuantity Q) (frames : List Input) :
    run Q frames (Curves.init Q) = some (stateAfter Q frames) := by
  obtain ⟨s2, h2, -⟩ := run_inv hQ frames (Curves.init Q) (isInitial_inv hQ (isInitial_init Q))
  simp [stateAfter, h2]

theorem reachable_stateAfter {Q : Nat} (hQ : ValidQuantity Q) (frames : List Input) :
    Reachable (stateAfter Q frames) :=
  ⟨Curves.init Q, frames, isInitial_init Q, run_stateAfter hQ frames⟩

theorem reachable_inv {Q : Nat} (hQ : ValidQuantity Q) {s : Curves Q} (h : Reachable s) :
    Inv s := (reachable_frameInv hQ h).1

theorem aqua_ne_blue : Colors.Aqua ≠ Colors.Blue := by
  intro h
  have := congrArg XMFLOAT4.y h
  simp [Colors.Aqua, Colors.Blue] at this

theorem Update_count_mono {Q : Nat} (hQ : ValidQuantity Q) (s : Curves Q) (hs : Inv s)
    (input : Input) (s2 : Curves Q) (hU : Update Q input s = some s2) :
    s.controlVertexCount ≤ s2.controlVertexCount := by
  obtain ⟨t, hT, -, -, hcnt, -, -⟩ := Update_spec hQ s hs input
  have ht : t = s2 := Option.some.inj (hT.symm.trans hU)
  subst ht
  rw [hcnt]
  split_ifs <;> omega

theorem run_recomputes {Q : Nat} (hQ : ValidQuantity Q) (frames : List Input) :
    ∀ s : Curves Q, Inv s → 2 ≤ s.controlVertexCount →
      ∃ s3 : Curves Q, run Q frames s = some s3 ∧ Inv s3 ∧ 2 ≤ s3.controlVertexCount ∧
        (frames ≠ [] → s3.curveVertexes = polylineOf s3.controlVertexes) := by
  induction frames with
  | nil =>
    intro s hs h2
    exact ⟨s, rfl, hs, h2, fun h => absurd rfl h⟩
  | cons input rest ih =>
    intro s hs h2
    obtain ⟨t, hT, -, -, -, hcurve, -⟩ := Update_spec hQ s hs input
    have hmono := Update_count_mono hQ s hs input t hT
    have ht2 : 2 ≤ t.controlVertexCount := by omega
    obtain ⟨s3, h3, hi3, hc3, hp3⟩ := ih t (Update_inv hQ s hs input t hT) ht2
    refine ⟨s3, by simp [run, hT, h3], hi3, hc3, ?_⟩
    intro _
    by_cases hrest : rest = []
    · subst hrest
      have : t = s3 := by simpa [run] using h3
      subst this
      rw [hcurve, if_pos (by omega)]
    · exact hp3 hrest

theorem Update_out_of_range {Q : Nat} (s : Curves Q) (h : Q ≤ s.controlVertexIndex)
    (input : Input) : Update Q input s = none := by
  have hn : ¬ s.controlVertexIndex < Q := by omega
  simp [Update, writeAt, hn]

theorem run_clicks {Q : Nat} (hQ : ValidQuantity Q) (frames : List Input) :
    ∀ s : Curves Q, Inv s → (∀ f ∈ frames, f.KeyPressLButton = true) →
      ∃ s2 : Curves Q, run Q frames s = some s2 ∧ Inv s2 ∧
        s2.controlVertexCount = min (s.controlVertexCount + frames.length) Q ∧
        s2.controlVertexIndex = (s.controlVertexIndex + frames.length) % Q := by
  induction frames with
  | nil =>
    intro s hs _
    refine ⟨s, rfl, hs, ?_, ?_⟩
    · have := hs.1
      simp only [List.length_nil, Nat.add_zero]
      omega
    · simp only [List.length_nil, Nat.add_zero]
      exact (Nat.mod_eq_of_lt hs.2).symm
  | cons input rest ih =>
    intro s hs hall
    have hclick : input.KeyPressLButton = true := hall input (List.mem_cons_self _ _)
    have hrest : ∀ f ∈ rest, f.KeyPressLButton = true :=
      fun f hf => hall f (List.mem_cons_of_mem _ hf)
    obtain ⟨t, hT, -, hidx, hcnt, -, -⟩ := Update_spec hQ s hs input
    obtain ⟨s2, h2, hi2, hc2, hx2⟩ := ih t (Update_inv hQ s hs input t hT) hrest
    refine ⟨s2, by simp [run, hT, h2], hi2, ?_, ?_⟩
    · rw [hc2, hcnt]
      have := hs.1
      simp only [hclick, true_and, List.length_cons]
      split_ifs <;> omega
    · rw [hx2, hidx]
      simp only [hclick, if_true, List.length_cons]
      rw [Nat.mod_add_mod]
      congr 1
      omega

theorem pred_mod {Q k : Nat} (hQ : 0 < Q) (hk : 1 ≤ k) : (k % Q + Q - 1) % Q = (k - 1) % Q := by
  have e1 : k % Q + Q - 1 = k % Q + (Q - 1) := by omega
  have e2 : k + (Q - 1) = (k - 1) + Q := by omega
  rw [e1, Nat.mod_add_mod, e2, Nat.add_mod_right]

/-! ## The claims -/

/-- C1 (the code at the failing input): from the initial state, commit
`A = (0,0)` and then `B = (1,1)`.  The count is 2 and slot `count - 1 = 1`
holds `B`, but the last polyline sample (index 27) is the all-zero vertex of
slot 79, which no frame has written: its position is not `B`.  In general a
recomputing frame copies slot `CONTROL_VERTEX_QUANTITY - 1 = 79` into the
last sample, whatever the count. -/
theorem C1_last_sample_is_slot_79 :
    run CONTROL_VERTEX_QUANTITY [commitA, commitB] (Curves.init CONTROL_VERTEX_QUANTITY) =
      some (stateAfter CONTROL_VERTEX_QUANTITY [commitA, commitB]) ∧
    commits [commitA, commitB] = [⟨0, 0, 0⟩, ⟨1, 1, 0⟩] ∧
    (stateAfter CONTROL_VERTEX_QUANTITY [commitA, commitB]).controlVertexCount = 2 ∧
    readAt (stateAfter CONTROL_VERTEX_QUANTITY [commitA, commitB]).controlVertexes
      ((stateAfter CONTROL_VERTEX_QUANTITY [commitA, commitB]).controlVertexCount - 1) =
      some ⟨⟨1, 1, 0⟩, Colors.Blue⟩ ∧
    readAt (stateAfter CONTROL_VERTEX_QUANTITY [commitA, commitB]).curveVertexes
      (CURVE_VERTEX_QUANTITY - 1) = some ⟨⟨0, 0, 0⟩, ⟨0, 0, 0, 0⟩⟩ ∧
    readAt (stateAfter CONTROL_VERTEX_QUANTITY [commitA, commitB]).controlVertexes
      (CONTROL_VERTEX_QUANTITY - 1) = some ⟨⟨0, 0, 0⟩, ⟨0, 0, 0, 0⟩⟩ ∧
    (∀ (s : Curves CONTROL_VERTEX_QUANTITY) (input : Input), Inv s →
      ∃ s2 : Curves CONTROL_VERTEX_QUANTITY,
        Update CONTROL_VERTEX_QUANTITY input s = some s2 ∧
        (1 < s2.controlVertexCount →
          readAt s2.curveVertexes (CURVE_VERTEX_QUANTITY - 1) =
            readAt s2.controlVertexes (CONTROL_VERTEX_QUANTITY - 1))) := by
  refine ⟨rfl, by decide!, by decide, by decide!, by decide!, by decide!, ?_⟩
  intro s input hs
  obtain ⟨s2, hU, -, -, -, hcurve, -⟩ := Update_spec validQuantity_reference s hs input
  refine ⟨s2, hU, ?_⟩
  intro h1
  rw [readAt_eq_slot _ (show CURVE_VERTEX_QUANTITY - 1 < CURVE_VERTEX_QUANTITY by decide),
    readAt_eq_slot _ (show CONTROL_VERTEX_QUANTITY - 1 < CONTROL_VERTEX_QUANTITY by decide),
    hcurve, if_pos h1, slot_polylineOf_last]

/-- C2: in every frame of `Update` (from any state satisfying the counter
invariant, whatever slots 0..3 hold) that recomputes the polyline, the
polyline has exactly 28 samples and each interior sample `i` in `1..26` has
`x` and `y` equal to the cubic blend of slots 0..3 at `t = i / 27`, has
`z = 0` and carries the colour Aqua, which is not the control-point colour;
the parameters `i / 27` are strictly increasing in `i`. -/
theorem C2_interior_samples {Q : Nat} (hQ : ValidQuantity Q) (s : Curves Q) (hs : Inv s)
    (input : Input) :
    ∃ (s2 : Curves Q) (P1 P2 P3 P4 : Vertex), Update Q input s = some s2 ∧
      readAt s2.controlVertexes 0 = some P1 ∧ readAt s2.controlVertexes 1 = some P2 ∧
      readAt s2.controlVertexes 2 = some P3 ∧ readAt s2.controlVertexes 3 = some P4 ∧
      (1 < s2.controlVertexCount →
        (∀ i : Nat, (readAt s2.curveVertexes i).isSome ↔ i < 28) ∧
        (∀ i : Nat, 1 ≤ i → i ≤ 26 →
          readAt s2.curveVertexes i =
            some ⟨⟨bezierBlend P1.Pos.x P2.Pos.x P3.Pos.x P4.Pos.x ((i : ℚ) / 27),
                   bezierBlend P1.Pos.y P2.Pos.y P3.Pos.y P4.Pos.y ((i : ℚ) / 27), 0⟩,
                  Colors.Aqua⟩)) ∧
      Colors.Aqua ≠ Colors.Blue ∧
      (∀ i j : Nat, i < j → (i : ℚ) / 27 < (j : ℚ) / 27) := by
  have hQ4 := hQ.1
  obtain ⟨s2, hU, hint⟩ := Update_interior hQ s hs input
  refine ⟨s2, slot s2.controlVertexes 0, slot s2.controlVertexes 1, slot s2.controlVertexes 2,
    slot s2.controlVertexes 3, hU, readAt_eq_slot _ (by omega), readAt_eq_slot _ (by omega),
    readAt_eq_slot _ (by omega), readAt_eq_slot _ (by omega), ?_, ?_, ?_⟩
  · intro h1
    constructor
    · intro i
      by_cases hi : i < CURVE_VERTEX_QUANTITY
      · simp [readAt, hi]
      · simp [readAt, hi]
    · intro i hi1 hi2
      rw [hint h1 i hi1 hi2, param_eq]
      rfl
  · intro h
    have := congrArg XMFLOAT4.y h
    simp [Colors.Aqua, Colors.Blue] at this
  · intro i j hij
    have : (i : ℚ) < (j : ℚ) := by exact_mod_cast hij
    exact div_lt_div_of_pos_right this (by norm_num)

/-- A witness of C2 in the program itself: the state after one commit. -/
theorem C2_interior_samples_witness :
    ValidQuantity CONTROL_VERTEX_QUANTITY ∧
    Inv (stateAfter CONTROL_VERTEX_QUANTITY [frameAt 512 300 true]) ∧
    ∃ (s2 : Curves CONTROL_VERTEX_QUANTITY) (P1 P2 P3 P4 : Vertex),
      Update CONTROL_VERTEX_QUANTITY (frameAt 1024 0 true)
        (stateAfter CONTROL_VERTEX_QUANTITY [frameAt 512 300 true]) = some s2 ∧
      readAt s2.controlVertexes 0 = some P1 ∧ readAt s2.controlVertexes 1 = some P2 ∧
      readAt s2.controlVertexes 2 = some P3 ∧ readAt s2.controlVertexes 3 = some P4 ∧
      (1 < s2.controlVertexCount →
        (∀ i : Nat, (readAt s2.curveVertexes i).isSome ↔ i < 28) ∧
        (∀ i : Nat, 1 ≤ i → i ≤ 26 →
          readAt s2.curveVertexes i =
            some ⟨⟨bezierBlend P1.Pos.x P2.Pos.x P3.Pos.x P4.Pos.x ((i : ℚ) / 27),
                   bezierBlend P1.Pos.y P2.Pos.y P3.Pos.y P4.Pos.y ((i : ℚ) / 27), 0⟩,
                  Colors.Aqua⟩)) ∧
      Colors.Aqua ≠ Colors.Blue ∧
      (∀ i j : Nat, i < j → (i : ℚ) / 27 < (j : ℚ) / 27) :=
  ⟨⟨by decide, by decide⟩, ⟨by decide, by decide⟩,
    C2_interior_samples ⟨by decide, by decide⟩ _ ⟨by decide, by decide⟩ _⟩

/-- C3: in every frame of `Update` that recomputes the polyline, sample 0 is
an exact copy of control-vertex slot 0 (position and colour); in a reachable
state that colour is the control-point colour Blue, not the curve colour
Aqua.  In particular, when the frames run from an initial state (whatever
its arrays contain) commit exactly `(0,0)` and then `(1,1)`, sample 0 is at
`(0,0)`. -/
theorem C3_first_sample {Q : Nat} (hQ : ValidQuantity Q) (s : Curves Q) (hs : Inv s)
    (input : Input) :
    (∃ (s2 : Curves Q) (v : Vertex), Update Q input s = some s2 ∧
      readAt s2.controlVertexes 0 = some v ∧
      (1 < s2.controlVertexCount →
        readAt s2.curveVertexes 0 = some v ∧
        (Reachable s → v.Color = Colors.Blue ∧ v.Color ≠ Colors.Aqua))) ∧
    (∀ (s0 : Curves Q) (frames : List Input), IsInitial s0 →
      commits frames = [⟨0, 0, 0⟩, ⟨1, 1, 0⟩] →
      ∃ (s3 : Curves Q) (w : Vertex), run Q frames s0 = some s3 ∧
        readAt s3.curveVertexes 0 = some w ∧ w.Pos = ⟨0, 0, 0⟩ ∧
        readAt s3.controlVertexes 0 = some w) := by
  have hQ4 := hQ.1
  constructor
  · obtain ⟨s2, hU, -, -, -, hcurve, -⟩ := Update_spec hQ s hs input
    refine ⟨s2, slot s2.controlVertexes 0, hU, readAt_eq_slot _ (by omega), ?_⟩
    intro h1
    constructor
    · rw [readAt_eq_slot _ (show 0 < CURVE_VERTEX_QUANTITY by decide), hcurve, if_pos h1,
        slot_polylineOf_zero]
    · intro hr
      have hF := reachable_frameInv hQ (reachable_step hr input hU)
      have hB := hF.2.2.1 (by omega)
      refine ⟨hB, ?_⟩
      rw [hB]
      exact fun h => aqua_ne_blue h.symm
  · intro s0 frames h0 hcs
    obtain ⟨s3, h3, -⟩ := run_inv hQ frames s0 (isInitial_inv hQ h0)
    have hC := committed_run hQ frames [] s0 s3 (committed_initial h0) h3
    rw [List.nil_append, hcs] at hC
    have hF := run_frameInv hQ frames s0 s3 (isInitial_frameInv hQ h0) h3
    obtain ⟨hcount, -, hslots⟩ := hC
    have hcount2 : s3.controlVertexCount = 2 := by
      rw [hcount]
      simp only [List.length_cons, List.length_nil]
      omega
    have hz : slot s3.controlVertexes 0 = ⟨⟨0, 0, 0⟩, Colors.Blue⟩ := by
      have := hslots 0 ⟨0, 0, 0⟩ (by simp) (by simp only [List.length_cons, List.length_nil]; omega)
      simpa using this
    refine ⟨s3, slot s3.controlVertexes 0, h3, ?_, ?_, readAt_eq_slot _ (by omega)⟩
    · rw [readAt_eq_slot _ (show 0 < CURVE_VERTEX_QUANTITY by decide), hF.2.2.2 (by omega),
        slot_polylineOf_zero]
    · rw [hz]

/-- A witness of C3 in the program itself: the state after one commit. -/
theorem C3_first_sample_witness :
    ValidQuantity CONTROL_VERTEX_QUANTITY ∧
    Inv (stateAfter CONTROL_VERTEX_QUANTITY [frameAt 512 300 true]) ∧
    ((∃ (s2 : Curves CONTROL_VERTEX_QUANTITY) (v : Vertex),
      Update CONTROL_VERTEX_QUANTITY (frameAt 1024 0 true)
        (stateAfter CONTROL_VERTEX_QUANTITY [frameAt 512 300 true]) = some s2 ∧
      readAt s2.controlVertexes 0 = some v ∧
      (1 < s2.controlVertexCount →
        readAt s2.curveVertexes 0 = some v ∧
        (Reachable (stateAfter CONTROL_VERTEX_QUANTITY [frameAt 512 300 true]) →
          v.Color = Colors.Blue ∧ v.Color ≠ Colors.Aqua))) ∧
    (∀ (s0 : Curves CONTROL_VERTEX_QUANTITY) (frames : List Input), IsInitial s0 →
      commits frames = [⟨0, 0, 0⟩, ⟨1, 1, 0⟩] →
      ∃ (s3 : Curves CONTROL_VERTEX_QUANTITY) (w : Vertex),
        run CONTROL_VERTEX_QUANTITY frames s0 = some s3 ∧
        readAt s3.curveVertexes 0 = some w ∧ w.Pos = ⟨0, 0, 0⟩ ∧
        readAt s3.controlVertexes 0 = some w)) :=
  ⟨⟨by decide, by decide⟩, ⟨by decide, by decide⟩,
    C3_first_sample ⟨by decide, by decide⟩ _ ⟨by decide, by decide⟩ _⟩

/-- C4: from every buffer state with count at most the capacity and write
index below the capacity, a commit frame sets the write index to
`(writeIndex + 1) mod capacity` and increments the count exactly when it is
below the capacity; after `capacity` consecutive commit frames the count
equals the capacity, and after any number of further commit frames every
further commit leaves the count unchanged while the write index still
advances to `(writeIndex + 1) mod capacity`. -/
theorem C4_commit_wraps_and_saturates {Q : Nat} (hQ : ValidQuantity Q) (s : Curves Q)
    (hs : Inv s) :
    (∀ input : Input, input.KeyPressLButton = true →
      ∃ s2 : Curves Q, Update Q input s = some s2 ∧
        s2.controlVertexIndex = (s.controlVertexIndex + 1) % Q ∧
        s2.controlVertexCount =
          (if s.controlVertexCount < Q then s.controlVertexCount + 1
           else s.controlVertexCount)) ∧
    (∀ frames : List Input, (∀ f ∈ frames, f.KeyPressLButton = true) → frames.length = Q →
      ∃ s2 : Curves Q, run Q frames s = some s2 ∧ s2.controlVertexCount = Q ∧
        ∀ more : List Input, (∀ f ∈ more, f.KeyPressLButton = true) →
          ∃ s3 : Curves Q, run Q more s2 = some s3 ∧ s3.controlVertexCount = Q ∧
            s3.controlVertexIndex = (s2.controlVertexIndex + more.length) % Q ∧
            ∀ input : Input, input.KeyPressLButton = true →
              ∃ s4 : Curves Q, Update Q input s3 = some s4 ∧
                s4.controlVertexCount = s3.controlVertexCount ∧
                s4.controlVertexIndex = (s3.controlVertexIndex + 1) % Q) := by
  constructor
  · intro input hclick
    obtain ⟨s2, hU, -, hidx, hcnt, -, -⟩ := Update_spec hQ s hs input
    refine ⟨s2, hU, ?_, ?_⟩
    · rw [hidx, if_pos hclick]
    · rw [hcnt]
      simp only [hclick, true_and]
  · intro frames hall hlen
    obtain ⟨s2, h2, hi2, hc2, -⟩ := run_clicks hQ frames s hs hall
    have hcQ : s2.controlVertexCount = Q := by
      rw [hc2, hlen]
      omega
    refine ⟨s2, h2, hcQ, ?_⟩
    intro more hmore
    obtain ⟨s3, h3, hi3, hc3, hx3⟩ := run_clicks hQ more s2 hi2 hmore
    have hc3Q : s3.controlVertexCount = Q := by
      rw [hc3, hcQ]
      omega
    refine ⟨s3, h3, hc3Q, hx3, ?_⟩
    intro input hclick
    obtain ⟨s4, hU, -, hidx, hcnt, -, -⟩ := Update_spec hQ s3 hi3 input
    refine ⟨s4, hU, ?_, ?_⟩
    · rw [hcnt, hc3Q]
      simp
    · rw [hidx, if_pos hclick]

/-- A witness of C4 in the program itself: the initial state, capacity 80. -/
theorem C4_commit_wraps_and_saturates_witness :
    ValidQuantity CONTROL_VERTEX_QUANTITY ∧ Inv (Curves.init CONTROL_VERTEX_QUANTITY) ∧
    ((∀ input : Input, input.KeyPressLButton = true →
      ∃ s2 : Curves CONTROL_VERTEX_QUANTITY,
        Update CONTROL_VERTEX_QUANTITY input (Curves.init CONTROL_VERTEX_QUANTITY) = some s2 ∧
        s2.controlVertexIndex =
          ((Curves.init CONTROL_VERTEX_QUANTITY).controlVertexIndex + 1) %
            CONTROL_VERTEX_QUANTITY ∧
        s2.controlVertexCount =
          (if (Curves.init CONTROL_VERTEX_QUANTITY).controlVertexCount <
              CONTROL_VERTEX_QUANTITY
           then (Curves.init CONTROL_VERTEX_QUANTITY).controlVertexCount + 1
           else (Curves.init CONTROL_VERTEX_QUANTITY).controlVertexCount)) ∧
    (∀ frames : List Input, (∀ f ∈ frames, f.KeyPressLButton = true) →
      frames.length = CONTROL_VERTEX_QUANTITY →
      ∃ s2 : Curves CONTROL_VERTEX_QUANTITY,
        run CONTROL_VERTEX_QUANTITY frames (Curves.init CONTROL_VERTEX_QUANTITY) = some s2 ∧
        s2.controlVertexCount = CONTROL_VERTEX_QUANTITY ∧
        ∀ more : List Input, (∀ f ∈ more, f.KeyPressLButton = true) →
          ∃ s3 : Curves CONTROL_VERTEX_QUANTITY,
            run CONTROL_VERTEX_QUANTITY more s2 = some s3 ∧
            s3.controlVertexCount = CONTROL_VERTEX_QUANTITY ∧
            s3.controlVertexIndex =
              (s2.controlVertexIndex + more.length) % CONTROL_VERTEX_QUANTITY ∧
            ∀ input : Input, input.KeyPressLButton = true →
              ∃ s4 : Curves CONTROL_VERTEX_QUANTITY,
                Update CONTROL_VERTEX_QUANTITY input s3 = some s4 ∧
                s4.controlVertexCount = s3.controlVertexCount ∧
                s4.controlVertexIndex =
                  (s3.controlVertexIndex + 1) % CONTROL_VERTEX_QUANTITY)) :=
  ⟨⟨by decide, by decide⟩, ⟨by decide, by decide⟩,
    C4_commit_wraps_and_saturates ⟨by decide, by decide⟩ (Curves.init CONTROL_VERTEX_QUANTITY)
      ⟨by decide, by decide⟩⟩

/-- C5: in every state reached from an initial state by frames containing at
least one commit, the slot at `(writeIndex - 1) mod capacity` holds the most
recently committed point (its position, with the control-point colour); when
exactly `capacity + 1` points were committed, slot 0 holds the last of them
(the oldest point is overwritten) and the count equals the capacity. -/
theorem C5_most_recent_commit {Q : Nat} (hQ : ValidQuantity Q) (s0 : Curves Q)
    (h0 : IsInitial s0) (frames : List Input) (p : XMFLOAT3)
    (hp : (commits frames).getLast? = some p) :
    ∃ s : Curves Q, run Q frames s0 = some s ∧
      readAt s.controlVertexes ((s.controlVertexIndex + Q - 1) % Q) = some ⟨p, Colors.Blue⟩ ∧
      ((commits frames).length = Q + 1 →
        readAt s.controlVertexes 0 = some ⟨p, Colors.Blue⟩ ∧ s.controlVertexCount = Q) := by
  have hQ4 := hQ.1
  have hpos : 0 < Q := by omega
  obtain ⟨s, hrun, -⟩ := run_inv hQ frames s0 (isInitial_inv hQ h0)
  have hC := committed_run hQ frames [] s0 s (committed_initial h0) hrun
  rw [List.nil_append] at hC
  obtain ⟨hcount, hidx, hslots⟩ := hC
  have hne : commits frames ≠ [] := by
    intro h
    rw [h] at hp
    simp at hp
  have hk : 1 ≤ (commits frames).length := by
    have := List.length_pos.mpr hne
    omega
  have hget : (commits frames)[(commits frames).length - 1]? = some p := by
    rw [← List.getLast?_eq_getElem?]
    exact hp
  have hslot := hslots _ p hget (by omega)
  refine ⟨s, hrun, ?_, ?_⟩
  · rw [hidx, pred_mod hpos hk, readAt_eq_slot _ (Nat.mod_lt _ hpos), hslot]
  · intro hlen
    constructor
    · rw [hlen, Nat.add_sub_cancel, Nat.mod_self] at hslot
      rw [readAt_eq_slot _ hpos, hslot]
    · rw [hcount, hlen]
      omega

/-- A witness of C5, the ring-overwrite scenario: capacity 4 and five
commits of five distinct points; slot 0 then holds the fifth point. -/
theorem C5_most_recent_commit_witness :
    ValidQuantity 4 ∧ IsInitial (Curves.init 4) ∧
    (commits fiveCommits).getLast? = some ⟨1, -1, 0⟩ ∧
    ∃ s : Curves 4, run 4 fiveCommits (Curves.init 4) = some s ∧
      readAt s.controlVertexes ((s.controlVertexIndex + 4 - 1) % 4) =
        some ⟨⟨1, -1, 0⟩, Colors.Blue⟩ ∧
      ((commits fiveCommits).length = 4 + 1 →
        readAt s.controlVertexes 0 = some ⟨⟨1, -1, 0⟩, Colors.Blue⟩ ∧
        s.controlVertexCount = 4) :=
  ⟨⟨by decide, by decide⟩, ⟨rfl, rfl⟩, by decide!,
    C5_most_recent_commit ⟨by decide, by decide⟩ (Curves.init 4) ⟨rfl, rfl⟩ fiveCommits
      ⟨1, -1, 0⟩ (by decide!)⟩

/-- C6: the pure blend `calculateBezierCoordinate` returns `p1` at `t = 0` and
`p4` at `t = 1` for any four control coordinates, so the point generated from
any four control points is `P1` at `t = 0` and `P4` at `t = 1` (in the plane
`z = 0`), independently of what `Update` writes into the end samples. -/
theorem C6_blend_endpoints (p1 p2 p3 p4 : ℚ) :
    calculateBezierCoordinate p1 p2 p3 p4 0 = p1 ∧
    calculateBezierCoordinate p1 p2 p3 p4 1 = p4 ∧
    (∀ P1 P2 P3 P4 : XMFLOAT3,
      (generateBezierPoint P1 P2 P3 P4 0).Pos = ⟨P1.x, P1.y, 0⟩ ∧
      (generateBezierPoint P1 P2 P3 P4 1).Pos = ⟨P4.x, P4.y, 0⟩) := by
  refine ⟨by simp [calculateBezierCoordinate], by simp [calculateBezierCoordinate], ?_⟩
  intro P1 P2 P3 P4
  simp [generateBezierPoint, calculateBezierCoordinate]

/-- C7: in every state reachable from an initial state the count is at most
the capacity and the write index is below the capacity, and every frame run
from such a state, and every sequence of frames, returns a state: no array
access of `Update` (the preview write, the reads of slots 0..3 and of the
last slot, the polyline writes) leaves its array.  The check is a real one:
from a state whose write index is outside the array `Update` fails. -/
theorem C7_indices_in_range {Q : Nat} (hQ : ValidQuantity Q) (s : Curves Q)
    (hs : Reachable s) :
    0 ≤ s.controlVertexCount ∧ s.controlVertexCount ≤ Q ∧ s.controlVertexIndex < Q ∧
    (∀ input : Input, ∃ s2 : Curves Q, Update Q input s = some s2 ∧ Reachable s2) ∧
    (∀ frames : List Input, ∃ s2 : Curves Q, run Q frames s = some s2) ∧
    (∀ v : Vertex, (writeAt s.controlVertexes s.controlVertexIndex v).isSome) ∧
    (∀ j : Nat, j < 4 → (readAt s.controlVertexes j).isSome) ∧
    (readAt s.controlVertexes (Q - 1)).isSome ∧
    (∀ (j : Nat) (v : Vertex), j ≤ CURVE_VERTEX_QUANTITY - 1 →
      (writeAt s.curveVertexes j v).isSome) ∧
    (∀ (t : Curves Q) (input : Input), Q ≤ t.controlVertexIndex → Update Q input t = none) := by
  have hinv := reachable_inv hQ hs
  have hQ4 := hQ.1
  refine ⟨Nat.zero_le _, hinv.1, hinv.2, ?_, ?_, ?_, ?_, ?_, ?_, ?_⟩
  · intro input
    obtain ⟨s2, hU, -⟩ := Update_spec hQ s hinv input
    exact ⟨s2, hU, reachable_step hs input hU⟩
  · intro frames
    obtain ⟨s2, h2, -⟩ := run_inv hQ frames s hinv
    exact ⟨s2, h2⟩
  · intro v
    simp [writeAt, hinv.2]
  · intro j hj
    have : j < Q := by omega
    simp [readAt, this]
  · have : Q - 1 < Q := by omega
    simp [readAt, this]
  · intro j v hj
    have hj2 : j ≤ 27 := hj
    have : j < CURVE_VERTEX_QUANTITY := show j < 28 by omega
    simp [writeAt, this]
  · intro t input ht
    exact Update_out_of_range t ht input

/-- A witness of C7 in the program itself: the state after two commits. -/
theorem C7_indices_in_range_witness :
    ValidQuantity CONTROL_VERTEX_QUANTITY ∧
    Reachable (stateAfter CONTROL_VERTEX_QUANTITY [commitA, commitB]) ∧
    (0 ≤ (stateAfter CONTROL_VERTEX_QUANTITY
      [commitA, commitB]).controlVertexCount ∧
    (stateAfter CONTROL_VERTEX_QUANTITY
      [commitA, commitB]).controlVertexCount ≤ CONTROL_VERTEX_QUANTITY ∧
    (stateAfter CONTROL_VERTEX_QUANTITY
      [commitA, commitB]).controlVertexIndex < CONTROL_VERTEX_QUANTITY ∧
    (∀ input : Input, ∃ s2 : Curves CONTROL_VERTEX_QUANTITY,
      Update CONTROL_VERTEX_QUANTITY input (stateAfter CONTROL_VERTEX_QUANTITY
        [commitA, commitB]) = some s2 ∧ Reachable s2) ∧
    (∀ frames : List Input, ∃ s2 : Curves CONTROL_VERTEX_QUANTITY,
      run CONTROL_VERTEX_QUANTITY frames (stateAfter CONTROL_VERTEX_QUANTITY
        [commitA, commitB]) = some s2) ∧
    (∀ v : Vertex, (writeAt (stateAfter CONTROL_VERTEX_QUANTITY
        [commitA, commitB]).controlVertexes
      (stateAfter CONTROL_VERTEX_QUANTITY
        [commitA, commitB]).controlVertexIndex v).isSome) ∧
    (∀ j : Nat, j < 4 → (readAt (stateAfter CONTROL_VERTEX_QUANTITY
        [commitA, commitB]).controlVertexes j).isSome) ∧
    (readAt (stateAfter CONTROL_VERTEX_QUANTITY
        [commitA, commitB]).controlVertexes
      (CONTROL_VERTEX_QUANTITY - 1)).isSome ∧
    (∀ (j : Nat) (v : Vertex), j ≤ CURVE_VERTEX_QUANTITY - 1 →
      (writeAt (stateAfter CONTROL_VERTEX_QUANTITY
        [commitA, commitB]).curveVertexes j v).isSome) ∧
    (∀ (t : Curves CONTROL_VERTEX_QUANTITY) (input : Input),
      CONTROL_VERTEX_QUANTITY ≤ t.controlVertexIndex →
      Update CONTROL_VERTEX_QUANTITY input t = none)) :=
  ⟨⟨by decide, by decide⟩, ⟨Curves.init _, [commitA, commitB], ⟨rfl, rfl⟩, rfl⟩,
    C7_indices_in_range ⟨by decide, by decide⟩ _
      ⟨Curves.init _, [commitA, commitB], ⟨rfl, rfl⟩, rfl⟩⟩

/-- C8: a frame of `Update` rewrites the polyline exactly when the count is at
least 2 after that frame's commit handling: a frame that ends with count
below 2 leaves the polyline as it was, a frame that ends with count at least
2 leaves the recomputation of the current control vertices; the count never
decreases, so from a state with count at least 2 every later frame ends with
count at least 2 and with a recomputed polyline. -/
theorem C8_recomputed_iff_two_points {Q : Nat} (hQ : ValidQuantity Q) (s : Curves Q)
    (hs : Inv s) (input : Input) :
    ∃ s2 : Curves Q, Update Q input s = some s2 ∧
      s.controlVertexCount ≤ s2.controlVertexCount ∧
      (s2.controlVertexCount < 2 → s2.curveVertexes = s.curveVertexes) ∧
      (2 ≤ s2.controlVertexCount → s2.curveVertexes = polylineOf s2.controlVertexes) ∧
      (2 ≤ s2.controlVertexCount → ∀ (frames : List Input) (last : Input),
        ∃ s3 : Curves Q, run Q (frames ++ [last]) s2 = some s3 ∧
          2 ≤ s3.controlVertexCount ∧ s3.curveVertexes = polylineOf s3.controlVertexes) := by
  obtain ⟨s2, hU, -, -, -, hcurve, -⟩ := Update_spec hQ s hs input
  refine ⟨s2, hU, Update_count_mono hQ s hs input s2 hU, ?_, ?_, ?_⟩
  · intro h
    rw [hcurve, if_neg (by omega)]
  · intro h
    rw [hcurve, if_pos (by omega)]
  · intro h frames last
    obtain ⟨s3, h3, -, hc3, hp3⟩ :=
      run_recomputes hQ (frames ++ [last]) s2 (Update_inv hQ s hs input s2 hU) h
    exact ⟨s3, h3, hc3, hp3 (by simp)⟩

/-- A witness of C8 in the program itself: the frame of the second commit. -/
theorem C8_recomputed_iff_two_points_witness :
    ValidQuantity CONTROL_VERTEX_QUANTITY ∧
    Inv (stateAfter CONTROL_VERTEX_QUANTITY [frameAt 512 300 true]) ∧
    ∃ s2 : Curves CONTROL_VERTEX_QUANTITY,
      Update CONTROL_VERTEX_QUANTITY (frameAt 1024 0 true)
        (stateAfter CONTROL_VERTEX_QUANTITY [frameAt 512 300 true]) = some s2 ∧
      (stateAfter CONTROL_VERTEX_QUANTITY [frameAt 512 300 true]).controlVertexCount ≤
        s2.controlVertexCount ∧
      (s2.controlVertexCount < 2 → s2.curveVertexes =
        (stateAfter CONTROL_VERTEX_QUANTITY [frameAt 512 300 true]).curveVertexes) ∧
      (2 ≤ s2.controlVertexCount → s2.curveVertexes = polylineOf s2.controlVertexes) ∧
      (2 ≤ s2.controlVertexCount → ∀ (frames : List Input) (last : Input),
        ∃ s3 : Curves CONTROL_VERTEX_QUANTITY,
          run CONTROL_VERTEX_QUANTITY (frames ++ [last]) s2 = some s3 ∧
          2 ≤ s3.controlVertexCount ∧ s3.curveVertexes = polylineOf s3.controlVertexes) :=
  ⟨⟨by decide, by decide⟩, ⟨by decide, by decide⟩,
    C8_recomputed_iff_two_points ⟨by decide, by decide⟩ _ ⟨by decide, by decide⟩ _⟩

/-- C9 (amended): for every reachable state in which more than 4 points have
been committed and whose write index is not one of the slots 0..3 (as is the
case while the buffer is not yet full), a further frame of `Update`, with or
without a commit and at any pointer position, leaves slots 0..3 and the
polyline samples 0..26 unchanged: only the last sample can change. -/
theorem C9_shape_unchanged_outside_window {Q : Nat} (hQ : ValidQuantity Q) (s : Curves Q)
    (hs : Reachable s) (h4 : 4 < s.controlVertexCount)
    (hidx : s.controlVertexCount < Q ∨ 4 ≤ s.controlVertexIndex) (input : Input) :
    ∃ s2 : Curves Q, Update Q input s = some s2 ∧
      (∀ j : Nat, j < 4 → readAt s2.controlVertexes j = readAt s.controlVertexes j) ∧
      (∀ i : Nat, i ≤ 26 → readAt s2.curveVertexes i = readAt s.curveVertexes i) := by
  have hQ4 := hQ.1
  obtain ⟨hinv, hI1, -, hI3⟩ := reachable_frameInv hQ hs
  have hi4 : 4 ≤ s.controlVertexIndex := by
    rcases hidx with h | h
    · rw [hI1 h]
      omega
    · exact h
  obtain ⟨s2, hU, hcv, -, -, hcurve, -⟩ := Update_spec hQ s hinv input
  have hmono := Update_count_mono hQ s hinv input s2 hU
  have hslot : ∀ j : Nat, j < 4 → slot s2.controlVertexes j = slot s.controlVertexes j := by
    intro j hj
    rw [hcv, slot_update_ne _ hinv.2 _ (by omega)]
  refine ⟨s2, hU, ?_, ?_⟩
  · intro j hj
    rw [readAt_eq_slot _ (show j < Q by omega), readAt_eq_slot _ (show j < Q by omega),
      hslot j hj]
  · intro i hi
    have hi28 : i < CURVE_VERTEX_QUANTITY := show i < 28 by omega
    rw [readAt_eq_slot _ hi28, readAt_eq_slot _ hi28, hcurve, if_pos (by omega),
      hI3 (by omega)]
    by_cases h0 : i = 0
    · subst h0
      rw [slot_polylineOf_zero, slot_polylineOf_zero, hslot 0 (by omega)]
    · have hi2 : i ≤ CURVE_VERTEX_QUANTITY - 2 := show i ≤ 26 from hi
      rw [slot_polylineOf_interior _ (by omega) hi2, slot_polylineOf_interior _ (by omega) hi2,
        hslot 0 (by omega), hslot 1 (by omega), hslot 2 (by omega), hslot 3 (by omega)]

/-- A witness of C9 (amended) in the program itself: the state after five
commits, where the write index is 5. -/
theorem C9_shape_unchanged_outside_window_witness :
    ValidQuantity CONTROL_VERTEX_QUANTITY ∧
    Reachable (stateAfter CONTROL_VERTEX_QUANTITY fiveCommits) ∧
    4 < (stateAfter CONTROL_VERTEX_QUANTITY fiveCommits).controlVertexCount ∧
    ((stateAfter CONTROL_VERTEX_QUANTITY fiveCommits).controlVertexCount <
        CONTROL_VERTEX_QUANTITY ∨
      4 ≤ (stateAfter CONTROL_VERTEX_QUANTITY fiveCommits).controlVertexIndex) ∧
    ∃ s2 : Curves CONTROL_VERTEX_QUANTITY,
      Update CONTROL_VERTEX_QUANTITY moveB (stateAfter CONTROL_VERTEX_QUANTITY fiveCommits) =
        some s2 ∧
      (∀ j : Nat, j < 4 → readAt s2.controlVertexes j =
        readAt (stateAfter CONTROL_VERTEX_QUANTITY fiveCommits).controlVertexes j) ∧
      (∀ i : Nat, i ≤ 26 → readAt s2.curveVertexes i =
        readAt (stateAfter CONTROL_VERTEX_QUANTITY fiveCommits).curveVertexes i) :=
  ⟨⟨by decide, by decide⟩, ⟨Curves.init _, fiveCommits, ⟨rfl, rfl⟩, rfl⟩, by decide,
    Or.inr (by decide),
    C9_shape_unchanged_outside_window ⟨by decide, by decide⟩
      (stateAfter CONTROL_VERTEX_QUANTITY fiveCommits)
      ⟨Curves.init _, fiveCommits, ⟨rfl, rfl⟩, rfl⟩ (by decide) (Or.inr (by decide)) moveB⟩

/-- C9, the counterexample: after 80 commits (all at `(0,0)`) the write index
has wrapped to slot 0; a further frame without a commit, the pointer at
`(1,1)`, overwrites slot 0 and moves interior sample 1 from `(0,0)` to
`(17576/19683, 17576/19683)`. -/
theorem C9_counterexample_after_wrap :
    Reachable (stateAfter CONTROL_VERTEX_QUANTITY eightyCommits) ∧
    4 < (stateAfter CONTROL_VERTEX_QUANTITY eightyCommits).controlVertexCount ∧
    (stateAfter CONTROL_VERTEX_QUANTITY eightyCommits).controlVertexIndex = 0 ∧
    readAt (stateAfter CONTROL_VERTEX_QUANTITY eightyCommits).curveVertexes 1 =
      some ⟨⟨0, 0, 0⟩, Colors.Aqua⟩ ∧
    (Update CONTROL_VERTEX_QUANTITY moveB (stateAfter CONTROL_VERTEX_QUANTITY eightyCommits)).bind
      (fun s2 => readAt s2.curveVertexes 1) =
      some ⟨⟨17576 / 19683, 17576 / 19683, 0⟩, Colors.Aqua⟩ ∧
    ¬ ∃ s2 : Curves CONTROL_VERTEX_QUANTITY,
      Update CONTROL_VERTEX_QUANTITY moveB (stateAfter CONTROL_VERTEX_QUANTITY eightyCommits) =
        some s2 ∧
      ∀ i : Nat, 1 ≤ i → i ≤ 26 → readAt s2.curveVertexes i =
        readAt (stateAfter CONTROL_VERTEX_QUANTITY eightyCommits).curveVertexes i := by
  have hA : readAt (stateAfter CONTROL_VERTEX_QUANTITY eightyCommits).curveVertexes 1 =
      some ⟨⟨0, 0, 0⟩, Colors.Aqua⟩ := by decide!
  have hB : (Update CONTROL_VERTEX_QUANTITY moveB
      (stateAfter CONTROL_VERTEX_QUANTITY eightyCommits)).bind
      (fun s2 => readAt s2.curveVertexes 1) =
      some ⟨⟨17576 / 19683, 17576 / 19683, 0⟩, Colors.Aqua⟩ := by decide!
  refine ⟨reachable_stateAfter validQuantity_reference _, by decide, by decide, hA, hB, ?_⟩
  rintro ⟨s2, hU, hsame⟩
  rw [hU, Option.some_bind, hsame 1 (by omega) (by omega), hA] at hB
  revert hB
  decide!

/-- C10: for `0 ≤ t ≤ 1` the blend `calculateBezierCoordinate p1 p2 p3 p4 t`
lies between the minimum and the maximum of `p1..p4`; hence in every frame of
`Update` that recomputes the polyline each interior sample lies in the
axis-aligned bounding box of control-vertex slots 0..3, and inside the
viewport `[-1,1] x [-1,1]` when those four slots do. -/
theorem C10_blend_in_hull {Q : Nat} (hQ : ValidQuantity Q) (s : Curves Q) (hs : Inv s)
    (input : Input) (p1 p2 p3 p4 t : ℚ) (h0 : 0 ≤ t) (h1 : t ≤ 1) :
    (min (min p1 p2) (min p3 p4) ≤ calculateBezierCoordinate p1 p2 p3 p4 t ∧
      calculateBezierCoordinate p1 p2 p3 p4 t ≤ max (max p1 p2) (max p3 p4)) ∧
    ∃ (s2 : Curves Q) (P1 P2 P3 P4 : Vertex), Update Q input s = some s2 ∧
      readAt s2.controlVertexes 0 = some P1 ∧ readAt s2.controlVertexes 1 = some P2 ∧
      readAt s2.controlVertexes 2 = some P3 ∧ readAt s2.controlVertexes 3 = some P4 ∧
      (1 < s2.controlVertexCount → ∀ i : Nat, 1 ≤ i → i ≤ 26 →
        ∃ v : Vertex, readAt s2.curveVertexes i = some v ∧
          min (min P1.Pos.x P2.Pos.x) (min P3.Pos.x P4.Pos.x) ≤ v.Pos.x ∧
          v.Pos.x ≤ max (max P1.Pos.x P2.Pos.x) (max P3.Pos.x P4.Pos.x) ∧
          min (min P1.Pos.y P2.Pos.y) (min P3.Pos.y P4.Pos.y) ≤ v.Pos.y ∧
          v.Pos.y ≤ max (max P1.Pos.y P2.Pos.y) (max P3.Pos.y P4.Pos.y) ∧
          ((∀ P ∈ [P1, P2, P3, P4],
              -1 ≤ P.Pos.x ∧ P.Pos.x ≤ 1 ∧ -1 ≤ P.Pos.y ∧ P.Pos.y ≤ 1) →
            -1 ≤ v.Pos.x ∧ v.Pos.x ≤ 1 ∧ -1 ≤ v.Pos.y ∧ v.Pos.y ≤ 1)) := by
  have hQ4 := hQ.1
  refine ⟨calculateBezierCoordinate_bounds p1 p2 p3 p4 t h0 h1, ?_⟩
  obtain ⟨s2, hU, hint⟩ := Update_interior hQ s hs input
  refine ⟨s2, slot s2.controlVertexes 0, slot s2.controlVertexes 1, slot s2.controlVertexes 2,
    slot s2.controlVertexes 3, hU, readAt_eq_slot _ (by omega), readAt_eq_slot _ (by omega),
    readAt_eq_slot _ (by omega), readAt_eq_slot _ (by omega), ?_⟩
  intro hc i hi1 hi2
  obtain ⟨ht0, ht1⟩ := param_range (i := i) hi2
  refine ⟨_, hint hc i hi1 hi2, ?_⟩
  have bx := calculateBezierCoordinate_bounds (slot s2.controlVertexes 0).Pos.x
    (slot s2.controlVertexes 1).Pos.x (slot s2.controlVertexes 2).Pos.x
    (slot s2.controlVertexes 3).Pos.x _ ht0 ht1
  have by1 := calculateBezierCoordinate_bounds (slot s2.controlVertexes 0).Pos.y
    (slot s2.controlVertexes 1).Pos.y (slot s2.controlVertexes 2).Pos.y
    (slot s2.controlVertexes 3).Pos.y _ ht0 ht1
  refine ⟨bx.1, bx.2, by1.1, by1.2, ?_⟩
  intro hbox
  have b1 := hbox (slot s2.controlVertexes 0) (by simp)
  have b2 := hbox (slot s2.controlVertexes 1) (by simp)
  have b3 := hbox (slot s2.controlVertexes 2) (by simp)
  have b4 := hbox (slot s2.controlVertexes 3) (by simp)
  refine ⟨?_, ?_, ?_, ?_⟩
  · exact calculateBezierCoordinate_ge _ _ _ _ _ _ ht0 ht1 b1.1 b2.1 b3.1 b4.1
  · exact calculateBezierCoordinate_le _ _ _ _ _ _ ht0 ht1 b1.2.1 b2.2.1 b3.2.1 b4.2.1
  · exact calculateBezierCoordinate_ge _ _ _ _ _ _ ht0 ht1 b1.2.2.1 b2.2.2.1 b3.2.2.1 b4.2.2.1
  · exact calculateBezierCoordinate_le _ _ _ _ _ _ ht0 ht1 b1.2.2.2 b2.2.2.2 b3.2.2.2 b4.2.2.2

/-- A witness of C10: the control coordinates `0, 1, 1, 0` at `t = 1/2`, and
the frame of the second commit in the program itself. -/
theorem C10_blend_in_hull_witness :
    ValidQuantity CONTROL_VERTEX_QUANTITY ∧
    Inv (stateAfter CONTROL_VERTEX_QUANTITY [frameAt 512 300 true]) ∧
    (0 : ℚ) ≤ 1 / 2 ∧ (1 / 2 : ℚ) ≤ 1 ∧
    ((min (min (0 : ℚ) 1) (min 1 0) ≤ calculateBezierCoordinate 0 1 1 0 (1 / 2) ∧
      calculateBezierCoordinate 0 1 1 0 (1 / 2) ≤ max (max (0 : ℚ) 1) (max 1 0)) ∧
    ∃ (s2 : Curves CONTROL_VERTEX_QUANTITY) (P1 P2 P3 P4 : Vertex),
      Update CONTROL_VERTEX_QUANTITY (frameAt 1024 0 true)
        (stateAfter CONTROL_VERTEX_QUANTITY [frameAt 512 300 true]) = some s2 ∧
      readAt s2.controlVertexes 0 = some P1 ∧ readAt s2.controlVertexes 1 = some P2 ∧
      readAt s2.controlVertexes 2 = some P3 ∧ readAt s2.controlVertexes 3 = some P4 ∧
      (1 < s2.controlVertexCount → ∀ i : Nat, 1 ≤ i → i ≤ 26 →
        ∃ v : Vertex, readAt s2.curveVertexes i = some v ∧
          min (min P1.Pos.x P2.Pos.x) (min P3.Pos.x P4.Pos.x) ≤ v.Pos.x ∧
          v.Pos.x ≤ max (max P1.Pos.x P2.Pos.x) (max P3.Pos.x P4.Pos.x) ∧
          min (min P1.Pos.y P2.Pos.y) (min P3.Pos.y P4.Pos.y) ≤ v.Pos.y ∧
          v.Pos.y ≤ max (max P1.Pos.y P2.Pos.y) (max P3.Pos.y P4.Pos.y) ∧
          ((∀ P ∈ [P1, P2, P3, P4],
              -1 ≤ P.Pos.x ∧ P.Pos.x ≤ 1 ∧ -1 ≤ P.Pos.y ∧ P.Pos.y ≤ 1) →
            -1 ≤ v.Pos.x ∧ v.Pos.x ≤ 1 ∧ -1 ≤ v.Pos.y ∧ v.Pos.y ≤ 1))) :=
  ⟨⟨by decide, by decide⟩, ⟨by decide, by decide⟩, by norm_num, by norm_num,
    C10_blend_in_hull ⟨by decide, by decide⟩ _ ⟨by decide, by decide⟩ _ 0 1 1 0 (1 / 2)
      (by norm_num) (by norm_num)⟩

end BezierCurves
